import Mathlib

/-!
Shallow embedding of `src/experimental-simple-cache/cache.ts` (and its use in
`src/components/SuspenseImage.tsx`) from the `concurrent-mode` repository.

The source is a small request-deduplication cache:

* a module-wide `const resourceCache = new Map()`;
* `createResource(fetchKey, fetch)` returns a handle with `read(input)` and
  `preload(input)`; both compute `key = fetchKey + ":" + input` and call
  `accessData(key, input)`, which (only when the key is absent) creates an
  entry `{ promise: fetch(input), status: "pending", value: null }`, registers
  continuations on the promise (success sets `status = "resolved"` and stores
  the value; rejection sets `status = "error"` and stores the error), and
  stores the entry in the map;
* `read` then switches on the entry's `status`: `"pending"` throws the stored
  promise, `"resolved"` returns the stored value, `"rejected"` throws the
  stored value, and the default branch returns `undefined`.

Modelling choices:

* The JS promise object is modelled by a numeric identity `promiseId`; a fresh
  id is allocated whenever a loader is invoked, so "the same promise" means
  "the same id".  A JS promise settles at most once, which the step relation
  enforces with a `settled` set of promise ids.
* The loader function captured by a handle is modelled by a numeric identity
  `fetchId`; invoking it is recorded in an append-only `log` of
  `(fetchId, input)` pairs, so "the loader was invoked exactly once" is a
  statement about `log`.
* `null` is `Option.none`; `undefined` surfaces as the dedicated
  `ReadResult.returnUndefined`.  A `read` that throws is modelled by the
  `ReadResult` constructors `throwPromise` / `throwError`; the impossible
  lookup miss directly after `accessData` (where JS would crash reading
  `result.status` of `undefined`) is the separate `ReadResult.typeError`.
* The JS `Map` is an insertion-ordered association list with `mapGet`,
  `mapHas` and `mapSet` mirroring `Map.get` / `Map.has` / `Map.set`.
* The input is taken as a string: the source interpolates `${input}` into the
  key, i.e. it only ever uses the string form of the input.
-/

namespace ConcurrentMode

/-- One cache entry, the object literal created at cache.ts lines 12-16:
`{ promise: fetch(input), status: "pending", value: null }`.  The `promise`
field is represented by the identity `promiseId` of the in-flight operation;
`status` is kept as the literal string the source stores; `value` is `none`
for JS `null`. -/
structure Resource (α : Type) where
  promiseId : Nat
  status : String
  value : Option α
deriving DecidableEq, Repr

/-- The module-wide `resourceCache` map, as an insertion-ordered association
list from keys to entries. -/
abbrev CacheMap (α : Type) := List (String × Resource α)

/-- `Map.prototype.get`: the value for the first matching key, or `none`. -/
def mapGet {α : Type} (m : CacheMap α) (k : String) : Option (Resource α) :=
  match m with
  | [] => none
  | (k1, v1) :: rest => if k1 = k then some v1 else mapGet rest k

/-- `Map.prototype.has`. -/
def mapHas {α : Type} (m : CacheMap α) (k : String) : Bool :=
  (mapGet m k).isSome

/-- `Map.prototype.set`: update in place when the key exists, append
otherwise (a JS `Map` keeps insertion order and never duplicates a key). -/
def mapSet {α : Type} (m : CacheMap α) (k : String) (v : Resource α) : CacheMap α :=
  match m with
  | [] => [(k, v)]
  | (k1, v1) :: rest => if k1 = k then (k, v) :: rest else (k1, v1) :: mapSet rest k v

/-- The whole mutable state of the module: the `resourceCache` map plus the
instrumentation needed to talk about promises and loader calls.  `nextId`
supplies fresh promise identities, `settled` records which promises have
already settled (a promise settles at most once), and `log` records every
loader invocation as a `(fetchId, input)` pair. -/
structure CacheState (α : Type) where
  cache : CacheMap α
  nextId : Nat
  settled : List Nat
  log : List (Nat × String)
deriving DecidableEq, Repr

/-- The state at module load: `resourceCache` is empty, nothing has run. -/
def initState {α : Type} : CacheState α := ⟨[], 0, [], []⟩

/-- `accessData(key, input)` (cache.ts lines 10-29): when the key is absent,
invoke the loader (`fetch(input)`, logged with a fresh promise id) and store a
new `{ status: "pending", value: null }` entry; when the key is present, do
nothing. -/
def accessData {α : Type} (fetchId : Nat) (key : String) (input : String)
    (s : CacheState α) : CacheState α :=
  if mapHas s.cache key then s
  else
    { cache := mapSet s.cache key ⟨s.nextId, "pending", none⟩,
      nextId := s.nextId + 1,
      settled := s.settled,
      log := s.log ++ [(fetchId, input)] }

/-- What a call to `read` does from the caller's point of view: return a value
normally, or throw.  `throwPromise` is `throw suspender` in the `"pending"`
case; `returnValue` is the `"resolved"` case; `throwError` is the `"rejected"`
case; `returnUndefined` is the default branch (`return undefined`);
`typeError` models the crash JS would suffer if the entry were missing after
`accessData` (reading `.status` of `undefined`). -/
inductive ReadResult (α : Type) where
  | throwPromise (promiseId : Nat)
  | returnValue (v : Option α)
  | throwError (e : Option α)
  | returnUndefined
  | typeError
deriving DecidableEq, Repr

/-- The `switch (result.status)` of `read` (cache.ts lines 38-54), as the
sequential comparison a JS switch performs. -/
def readOutcome {α : Type} (o : Option (Resource α)) : ReadResult α :=
  match o with
  | none => ReadResult.typeError
  | some result =>
    if result.status = "pending" then ReadResult.throwPromise result.promiseId
    else if result.status = "resolved" then ReadResult.returnValue result.value
    else if result.status = "rejected" then ReadResult.throwError result.value
    else ReadResult.returnUndefined

/-- `read(input)` (cache.ts lines 32-55): compute
`key = ${fetchKey}:${input}`, run `accessData(key, input)`, then switch on the
status of `resourceCache.get(key)`.  The handle's captured `fetchKey` and
`fetch` appear as the first two arguments. -/
def read {α : Type} (fetchKey : String) (fetchId : Nat) (input : String)
    (s : CacheState α) : ReadResult α × CacheState α :=
  let key := fetchKey ++ ":" ++ input
  let s1 := accessData fetchId key input s
  (readOutcome (mapGet s1.cache key), s1)

/-- `preload(input)` (cache.ts lines 56-59): compute
`key = ${fetchKey}:${input}` and run `accessData(key, input)`; nothing is
returned. -/
def preload {α : Type} (fetchKey : String) (fetchId : Nat) (input : String)
    (s : CacheState α) : CacheState α :=
  accessData fetchId (fetchKey ++ ":" ++ input) input s

/-- How an in-flight operation can settle: fulfil with a value or reject with
an error. -/
inductive Outcome (α : Type) where
  | success (v : α)
  | failure (e : α)
deriving DecidableEq, Repr

/-- The continuations registered at cache.ts lines 17-26: fulfilment sets
`status = "resolved"` and stores the value; rejection sets `status = "error"`
and stores the error.  The promise identity is untouched. -/
def settleEntry {α : Type} (r : Resource α) (out : Outcome α) : Resource α :=
  match out with
  | Outcome.success v => ⟨r.promiseId, "resolved", some v⟩
  | Outcome.failure e => ⟨r.promiseId, "error", some e⟩

/-- The effect of the promise at `key` settling with `out`: run the
registered continuation on the stored entry and mark the promise settled. -/
def settle {α : Type} (key : String) (out : Outcome α) (s : CacheState α) :
    CacheState α :=
  match mapGet s.cache key with
  | none => s
  | some r =>
    { cache := mapSet s.cache key (settleEntry r out),
      nextId := s.nextId,
      settled := s.settled ++ [r.promiseId],
      log := s.log }

/-- The events that can touch the module state: a `read` or `preload` through
any handle, or a pending promise settling.  A settle step requires the entry
to exist and its promise not to have settled yet (a JS promise settles at
most once, and the continuation is registered exactly once, at entry
creation). -/
inductive Step {α : Type} : CacheState α → CacheState α → Prop where
  | stepRead (f : String) (l : Nat) (i : String) (s : CacheState α) :
      Step s (read f l i s).2
  | stepPreload (f : String) (l : Nat) (i : String) (s : CacheState α) :
      Step s (preload f l i s)
  | stepSettle (key : String) (out : Outcome α) (r : Resource α) (s : CacheState α)
      (hget : mapGet s.cache key = some r) (hns : r.promiseId ∉ s.settled) :
      Step s (settle key out s)

/-- States reachable from module load. -/
inductive Reachable {α : Type} : CacheState α → Prop where
  | init : Reachable initState
  | step {s t : CacheState α} : Reachable s → Step s t → Reachable t

/-- Zero or more steps. -/
inductive Steps {α : Type} : CacheState α → CacheState α → Prop where
  | refl (s : CacheState α) : Steps s s
  | tail {s t u : CacheState α} : Steps s t → Step t u → Steps s u

/-- The only status strings an entry can ever carry. -/
def statusOk {α : Type} (r : Resource α) : Prop :=
  r.status = "pending" ∨ r.status = "resolved" ∨ r.status = "error"

/-- Invariant of every reachable state: every entry carries one of the three
status strings the code can write, a non-pending entry's promise has settled,
and the map never holds two entries for one key. -/
def Inv {α : Type} (s : CacheState α) : Prop :=
  (∀ k r, mapGet s.cache k = some r →
      statusOk r ∧ (r.status ≠ "pending" → r.promiseId ∈ s.settled)) ∧
  (s.cache.map Prod.fst).Nodup

/-- A caller can hit the cache through either operation of a handle. -/
inductive CallKind where
  | readCall
  | preloadCall
deriving DecidableEq, Repr

/-- State effect of one `read` or `preload` call through the handle
`(f, l)` with input `i`. -/
def applyCall {α : Type} (f : String) (l : Nat) (i : String) (c : CallKind)
    (s : CacheState α) : CacheState α :=
  match c with
  | CallKind.readCall => (read f l i s).2
  | CallKind.preloadCall => preload f l i s

/-- State effect of a sequence of `read`/`preload` calls through the handle
`(f, l)` with input `i`, with no other event in between. -/
def applyCalls {α : Type} (f : String) (l : Nat) (i : String) (cs : List CallKind)
    (s : CacheState α) : CacheState α :=
  match cs with
  | [] => s
  | c :: rest => applyCalls f l i rest (applyCall f l i c s)

/-- The key formula exactly as the spec words it:
`key = resourceFamily + ":" + toString(input)` (the input is already taken in
its string form). -/
def specKey (resourceFamily : String) (input : String) : String :=
  resourceFamily ++ ":" ++ input

/-- The state after a first `read("x")` through a handle `("f", 0)`:
one pending entry at key `"f:x"` with promise id 0. -/
def exPend : CacheState Nat := (read "f" 0 "x" initState).2

/-- `exPend` after the load fulfils with `5`. -/
def exRes : CacheState Nat := settle "f:x" (Outcome.success 5) exPend

/-- `exPend` after the load rejects with `7`. -/
def exErr : CacheState Nat := settle "f:x" (Outcome.failure 7) exPend

/-- The spec scenario for a failed load: a handle `("comments", 0)` whose
loader rejects with `"network error"` for input `"42"`, after the first
`read` and after the rejection continuation has run. -/
def exRejectedLoad : CacheState String :=
  settle "comments:42" (Outcome.failure "network error")
    (read "comments" 0 "42" initState).2

/-! ### Basic facts about the map operations -/

variable {α : Type}

theorem mapGet_mapSet_self (m : CacheMap α) (k : String) (v : Resource α) :
    mapGet (mapSet m k v) k = some v := by
  induction m with
  | nil => simp [mapSet, mapGet]
  | cons p rest ih =>
    obtain ⟨k1, v1⟩ := p
    by_cases hk : k1 = k
    · simp [mapSet, hk, mapGet]
    · simp [mapSet, hk, mapGet, ih]

theorem mapGet_mapSet_ne {k k' : String} (m : CacheMap α) (v : Resource α)
    (h : k' ≠ k) : mapGet (mapSet m k v) k' = mapGet m k' := by
  induction m with
  | nil => simp [mapSet, mapGet, Ne.symm h]
  | cons p rest ih =>
    obtain ⟨k1, v1⟩ := p
    by_cases hk : k1 = k
    · subst hk
      simp [mapSet, mapGet, Ne.symm h]
    · by_cases hk' : k1 = k'
      · simp [mapSet, hk, mapGet, hk', h]
      · simp [mapSet, hk, mapGet, hk', ih]

theorem mapHas_of_get_eq_some {m : CacheMap α} {k : String} {r : Resource α}
    (h : mapGet m k = some r) : mapHas m k = true := by
  simp [mapHas, h]

theorem mapGet_eq_none_of_not_has {m : CacheMap α} {k : String}
    (h : mapHas m k = false) : mapGet m k = none := by
  cases hm : mapGet m k with
  | none => rfl
  | some r => rw [mapHas, hm] at h; simp at h

theorem keys_mapSet_of_has {m : CacheMap α} {k : String} (v : Resource α)
    (h : mapHas m k = true) : (mapSet m k v).map Prod.fst = m.map Prod.fst := by
  induction m with
  | nil => simp [mapHas, mapGet] at h
  | cons p rest ih =>
    obtain ⟨k1, v1⟩ := p
    by_cases hk : k1 = k
    · simp [mapSet, hk]
    · have h' : mapHas rest k = true := by simpa [mapHas, mapGet, hk] using h
      simp [mapSet, hk, ih h']

theorem keys_mapSet_of_not_has {m : CacheMap α} {k : String} (v : Resource α)
    (h : mapHas m k = false) :
    (mapSet m k v).map Prod.fst = m.map Prod.fst ++ [k] := by
  induction m with
  | nil => simp [mapSet]
  | cons p rest ih =>
    obtain ⟨k1, v1⟩ := p
    by_cases hk : k1 = k
    · exfalso; simp [mapHas, mapGet, hk] at h
    · have h' : mapHas rest k = false := by simpa [mapHas, mapGet, hk] using h
      simp [mapSet, hk, ih h']

theorem not_mem_keys_of_not_has {m : CacheMap α} {k : String}
    (h : mapHas m k = false) : k ∉ m.map Prod.fst := by
  induction m with
  | nil => simp
  | cons p rest ih =>
    obtain ⟨k1, v1⟩ := p
    by_cases hk : k1 = k
    · simp [mapHas, mapGet, hk] at h
    · have h' : mapHas rest k = false := by simpa [mapHas, mapGet, hk] using h
      intro hmem
      rcases List.mem_cons.mp hmem with he | hm
      · exact hk he.symm
      · exact ih h' hm

theorem nodup_keys_mapSet {m : CacheMap α} {k : String} {v : Resource α}
    (h : (m.map Prod.fst).Nodup) : ((mapSet m k v).map Prod.fst).Nodup := by
  cases hh : mapHas m k
  · rw [keys_mapSet_of_not_has v hh, List.nodup_append_comm]
    exact List.nodup_cons.mpr ⟨not_mem_keys_of_not_has hh, h⟩
  · rw [keys_mapSet_of_has v hh]
    exact h

/-! ### Basic facts about `accessData`, `read`, `preload` and `settle` -/

theorem accessData_of_has {s : CacheState α} {key : String} (l : Nat) (i : String)
    (h : mapHas s.cache key = true) : accessData l key i s = s := by
  simp [accessData, h]

theorem accessData_of_not_has {s : CacheState α} {key : String} (l : Nat) (i : String)
    (h : mapHas s.cache key = false) :
    accessData l key i s =
      { cache := mapSet s.cache key ⟨s.nextId, "pending", none⟩,
        nextId := s.nextId + 1,
        settled := s.settled,
        log := s.log ++ [(l, i)] } := by
  simp [accessData, h]

theorem mapHas_accessData_self (l : Nat) (key i : String) (s : CacheState α) :
    mapHas (accessData l key i s).cache key = true := by
  cases hh : mapHas s.cache key
  · rw [accessData_of_not_has l i hh]
    exact mapHas_of_get_eq_some (mapGet_mapSet_self _ _ _)
  · rw [accessData_of_has l i hh]
    exact hh

theorem mapGet_accessData_cases (l : Nat) (key i : String) (s : CacheState α)
    (k : String) :
    mapGet (accessData l key i s).cache k = mapGet s.cache k ∨
    (k = key ∧ mapHas s.cache key = false ∧
      mapGet (accessData l key i s).cache k = some ⟨s.nextId, "pending", none⟩) := by
  cases hh : mapHas s.cache key
  · by_cases hk : k = key
    · subst hk
      refine Or.inr ⟨rfl, rfl, ?_⟩
      rw [accessData_of_not_has l i hh]
      exact mapGet_mapSet_self _ _ _
    · left
      rw [accessData_of_not_has l i hh]
      exact mapGet_mapSet_ne _ _ hk
  · left
    rw [accessData_of_has l i hh]

theorem read_snd (f : String) (l : Nat) (i : String) (s : CacheState α) :
    (read f l i s).2 = accessData l (f ++ ":" ++ i) i s := rfl

theorem read_fst (f : String) (l : Nat) (i : String) (s : CacheState α) :
    (read f l i s).1 =
      readOutcome (mapGet (accessData l (f ++ ":" ++ i) i s).cache (f ++ ":" ++ i)) :=
  rfl

theorem preload_def (f : String) (l : Nat) (i : String) (s : CacheState α) :
    preload f l i s = accessData l (f ++ ":" ++ i) i s := rfl

theorem settle_of_get {s : CacheState α} {key : String} {r : Resource α}
    (out : Outcome α) (hget : mapGet s.cache key = some r) :
    settle key out s =
      { cache := mapSet s.cache key (settleEntry r out),
        nextId := s.nextId,
        settled := s.settled ++ [r.promiseId],
        log := s.log } := by
  unfold settle
  rw [hget]

theorem settleEntry_promiseId (r : Resource α) (out : Outcome α) :
    (settleEntry r out).promiseId = r.promiseId := by
  cases out <;> rfl

/-! ### The status strings and the switch in `read` -/

theorem readOutcome_pending {r : Resource α} (h : r.status = "pending") :
    readOutcome (some r) = ReadResult.throwPromise r.promiseId := by
  simp [readOutcome, h]

theorem readOutcome_resolved {r : Resource α} (h : r.status = "resolved") :
    readOutcome (some r) = ReadResult.returnValue r.value := by
  simp [readOutcome, h]

theorem readOutcome_error {r : Resource α} (h : r.status = "error") :
    readOutcome (some r) = ReadResult.returnUndefined := by
  simp [readOutcome, h]

theorem readOutcome_rejected {r : Resource α} (h : r.status = "rejected") :
    readOutcome (some r) = ReadResult.throwError r.value := by
  simp [readOutcome, h]

theorem readOutcome_other {r : Resource α} (h1 : r.status ≠ "pending")
    (h2 : r.status ≠ "resolved") (h3 : r.status ≠ "rejected") :
    readOutcome (some r) = ReadResult.returnUndefined := by
  simp [readOutcome, h1, h2, h3]

theorem readOutcome_eq_throwPromise {o : Option (Resource α)} {p : Nat}
    (h : readOutcome o = ReadResult.throwPromise p) :
    ∃ r, o = some r ∧ r.status = "pending" ∧ r.promiseId = p := by
  cases o with
  | none => simp [readOutcome] at h
  | some r =>
    by_cases h1 : r.status = "pending"
    · exact ⟨r, rfl, h1, by rw [readOutcome_pending h1] at h; simpa using h⟩
    · exfalso
      by_cases h2 : r.status = "resolved"
      · rw [readOutcome_resolved h2] at h
        simp at h
      · by_cases h3 : r.status = "rejected"
        · rw [readOutcome_rejected h3] at h
          simp at h
        · rw [readOutcome_other h1 h2 h3] at h
          simp at h

theorem readOutcome_ne_throwError_of_statusOk {r : Resource α} (h : statusOk r)
    (e : Option α) : readOutcome (some r) ≠ ReadResult.throwError e := by
  rcases h with h | h | h
  · rw [readOutcome_pending h]; simp
  · rw [readOutcome_resolved h]; simp
  · rw [readOutcome_error h]; simp

/-! ### The reachability invariant -/

theorem inv_init : Inv (initState : CacheState α) := by
  constructor
  · intro k r h
    simp [initState, mapGet] at h
  · simp [initState]

theorem inv_accessData {s : CacheState α} (h : Inv s) (l : Nat) (key i : String) :
    Inv (accessData l key i s) := by
  obtain ⟨hent, hnd⟩ := h
  cases hh : mapHas s.cache key
  · rw [accessData_of_not_has l i hh]
    constructor
    · intro k r hget
      by_cases hk : k = key
      · subst hk
        rw [mapGet_mapSet_self] at hget
        injection hget with hr
        subst hr
        exact ⟨Or.inl rfl, fun hne => absurd rfl hne⟩
      · rw [mapGet_mapSet_ne _ _ hk] at hget
        exact hent k r hget
    · exact nodup_keys_mapSet hnd
  · rw [accessData_of_has l i hh]
    exact ⟨hent, hnd⟩

theorem inv_settle {s : CacheState α} (h : Inv s) {key : String} (out : Outcome α)
    {r : Resource α} (hget : mapGet s.cache key = some r) :
    Inv (settle key out s) := by
  obtain ⟨hent, hnd⟩ := h
  rw [settle_of_get out hget]
  constructor
  · intro k r' hget'
    by_cases hk : k = key
    · subst hk
      rw [mapGet_mapSet_self] at hget'
      injection hget' with hr
      subst hr
      constructor
      · cases out <;> simp [settleEntry, statusOk]
      · intro _
        rw [settleEntry_promiseId]
        exact List.mem_append_right _ (List.mem_singleton.mpr rfl)
    · rw [mapGet_mapSet_ne _ _ hk] at hget'
      obtain ⟨hok, hmem⟩ := hent k r' hget'
      exact ⟨hok, fun hne => List.mem_append_left _ (hmem hne)⟩
  · rw [keys_mapSet_of_has _ (mapHas_of_get_eq_some hget)]
    exact hnd

theorem inv_step {s t : CacheState α} (h : Inv s) (hst : Step s t) : Inv t := by
  cases hst with
  | stepRead f l i s =>
    rw [read_snd]
    exact inv_accessData h l _ i
  | stepPreload f l i s =>
    rw [preload_def]
    exact inv_accessData h l _ i
  | stepSettle key out r s hget hns =>
    exact inv_settle h out hget

theorem reachable_inv {s : CacheState α} (h : Reachable s) : Inv s := by
  induction h with
  | init => exact inv_init
  | step hr hst ih => exact inv_step ih hst

theorem reachable_steps {s t : CacheState α} (hr : Reachable s) (hs : Steps s t) :
    Reachable t := by
  induction hs with
  | refl => exact hr
  | tail hprev hstep ih => exact Reachable.step ih hstep

/-! ### How one step can change one entry -/

theorem step_entry {s t : CacheState α} (hinv : Inv s) (hst : Step s t)
    {k : String} {r : Resource α} (hget : mapGet s.cache k = some r) :
    mapGet t.cache k = some r ∨
    (r.status = "pending" ∧
      ∃ out : Outcome α, mapGet t.cache k = some (settleEntry r out)) := by
  cases hst with
  | stepRead f l i s =>
    rw [read_snd]
    rcases mapGet_accessData_cases l (f ++ ":" ++ i) i s k with hc | ⟨hk, hh, _⟩
    · left; rw [hc]; exact hget
    · subst hk
      rw [mapGet_eq_none_of_not_has hh] at hget
      simp at hget
  | stepPreload f l i s =>
    rw [preload_def]
    rcases mapGet_accessData_cases l (f ++ ":" ++ i) i s k with hc | ⟨hk, hh, _⟩
    · left; rw [hc]; exact hget
    · subst hk
      rw [mapGet_eq_none_of_not_has hh] at hget
      simp at hget
  | stepSettle key out r' s hget' hns =>
    by_cases hk : k = key
    · subst hk
      rw [hget'] at hget
      injection hget with hr
      subst hr
      have hpend : r'.status = "pending" := by
        by_contra hne
        exact hns ((hinv.1 k r' hget').2 hne)
      refine Or.inr ⟨hpend, out, ?_⟩
      rw [settle_of_get out hget']
      exact mapGet_mapSet_self _ _ _
    · left
      rw [settle_of_get out hget']
      exact (mapGet_mapSet_ne _ _ hk).trans hget

theorem step_entry_terminal {s t : CacheState α} (hinv : Inv s) (hst : Step s t)
    {k : String} {r : Resource α} (hget : mapGet s.cache k = some r)
    (hterm : r.status ≠ "pending") : mapGet t.cache k = some r := by
  rcases step_entry hinv hst hget with h | ⟨hp, _⟩
  · exact h
  · exact absurd hp hterm

theorem steps_entry_terminal {s t : CacheState α} (hr : Reachable s) (hs : Steps s t)
    {k : String} {r : Resource α} (hget : mapGet s.cache k = some r)
    (hterm : r.status ≠ "pending") : mapGet t.cache k = some r := by
  induction hs with
  | refl => exact hget
  | tail hprev hstep ih =>
    exact step_entry_terminal (reachable_inv (reachable_steps hr hprev)) hstep ih hterm

theorem steps_entry {s t : CacheState α} (hr : Reachable s) (hs : Steps s t)
    {k : String} {r : Resource α} (hget : mapGet s.cache k = some r) :
    ∃ r', mapGet t.cache k = some r' ∧
      (r' = r ∨ (r.status = "pending" ∧
        (r'.status = "resolved" ∨ r'.status = "error"))) := by
  induction hs with
  | refl => exact ⟨r, hget, Or.inl rfl⟩
  | tail hprev hstep ih =>
    obtain ⟨r1, hget1, hcase⟩ := ih
    have hinv := reachable_inv (reachable_steps hr hprev)
    rcases step_entry hinv hstep hget1 with h2 | ⟨hp1, out, h2⟩
    · exact ⟨r1, h2, hcase⟩
    · refine ⟨settleEntry r1 out, h2, Or.inr ?_⟩
      rcases hcase with rfl | ⟨hp, hterm1⟩
      · exact ⟨hp1, by cases out <;> simp [settleEntry]⟩
      · exfalso
        rcases hterm1 with h | h <;> rw [hp1] at h <;> simp at h

/-! ### Repeated calls through the same handle with the same input -/

theorem applyCall_eq (f : String) (l : Nat) (i : String) (c : CallKind)
    (s : CacheState α) : applyCall f l i c s = accessData l (f ++ ":" ++ i) i s := by
  cases c <;> rfl

theorem applyCalls_of_has (f : String) (l : Nat) (i : String) (cs : List CallKind)
    {s : CacheState α} (h : mapHas s.cache (f ++ ":" ++ i) = true) :
    applyCalls f l i cs s = s := by
  induction cs with
  | nil => rfl
  | cons c rest ih =>
    show applyCalls f l i rest (applyCall f l i c s) = s
    rw [applyCall_eq, accessData_of_has l i h]
    exact ih

theorem applyCalls_ne_nil (f : String) (l : Nat) (i : String) {cs : List CallKind}
    (h : cs ≠ []) (s : CacheState α) :
    applyCalls f l i cs s = accessData l (f ++ ":" ++ i) i s := by
  cases cs with
  | nil => exact absurd rfl h
  | cons c rest =>
    show applyCalls f l i rest (applyCall f l i c s) = _
    rw [applyCall_eq]
    exact applyCalls_of_has f l i rest (mapHas_accessData_self l _ i s)

/-! ### Concrete runs of the code, used to instantiate the statements -/

theorem exPend_get : mapGet exPend.cache "f:x" = some ⟨0, "pending", none⟩ := by
  decide

theorem exPend_reachable : Reachable exPend :=
  Reachable.step Reachable.init (Step.stepRead "f" 0 "x" initState)

theorem exRes_reachable : Reachable exRes :=
  Reachable.step exPend_reachable
    (Step.stepSettle "f:x" (Outcome.success 5) ⟨0, "pending", none⟩ exPend exPend_get
      (by decide))

theorem exErr_reachable : Reachable exErr :=
  Reachable.step exPend_reachable
    (Step.stepSettle "f:x" (Outcome.failure 7) ⟨0, "pending", none⟩ exPend exPend_get
      (by decide))

theorem exPend_to_exRes : Steps exPend exRes :=
  Steps.tail (Steps.refl exPend)
    (Step.stepSettle "f:x" (Outcome.success 5) ⟨0, "pending", none⟩ exPend exPend_get
      (by decide))

/-! ### The claims -/

/-- C1: the claim says a rejected load's stored failure value is raised by
every subsequent `read`.  The code does not do this: the rejection
continuation (cache.ts line 23) stores the status string `"error"`, while the
switch in `read` only raises the stored value in its `case "rejected"`
(line 47), so a read of a failed entry falls into the default branch and
returns `undefined`.  This theorem runs the spec's own failure scenario
(family `"comments"`, input `"42"`, loader rejects with `"network error"`)
and shows the stored failure is present, no new loader invocation happens,
yet `read` returns `undefined` instead of raising the failure. -/
theorem claim_C1_code_divergence :
    mapGet exRejectedLoad.cache "comments:42" =
      some ⟨0, "error", some "network error"⟩ ∧
    (read "comments" 1 "42" exRejectedLoad).1 = ReadResult.returnUndefined ∧
    (read "comments" 1 "42" exRejectedLoad).2 = exRejectedLoad ∧
    (read "comments" 1 "42" exRejectedLoad).1 ≠
      ReadResult.throwError (some "network error") := by
  decide

/-- C2: in every reachable state the cache holds at most one entry per key,
and any nonempty burst of `read`/`preload` calls through one handle with one
input has exactly the effect of a single `accessData`: the loader is invoked
exactly once when the key was absent (the invocation log grows by one) and
never when it was present (the log is unchanged); every call after the first
reuses the existing entry, leaving the state of the first call untouched. -/
theorem claim_C2 (s : CacheState α) (hr : Reachable s) :
    (s.cache.map Prod.fst).Nodup ∧
    ∀ (f : String) (l : Nat) (i : String) (cs : List CallKind), cs ≠ [] →
      applyCalls f l i cs s = accessData l (f ++ ":" ++ i) i s ∧
      (applyCalls f l i cs s).log.length =
        s.log.length + (if mapHas s.cache (f ++ ":" ++ i) then 0 else 1) := by
  refine ⟨(reachable_inv hr).2, ?_⟩
  intro f l i cs hne
  rw [applyCalls_ne_nil f l i hne]
  refine ⟨rfl, ?_⟩
  cases hh : mapHas s.cache (f ++ ":" ++ i)
  · rw [accessData_of_not_has l i hh]
    simp [hh]
  · rw [accessData_of_has l i hh]
    simp [hh]

/-- C3: along any run from a reachable state, an entry's `status` either
stays what it was or moves from `"pending"` to one of the terminal strings
`"resolved"` / `"error"` (the code's realization of the spec's `Resolved` /
`Rejected`); a terminal status is never left, never reversed to pending, and
the two terminal statuses exclude each other because only one of them can be
the status the entry moved to. -/
theorem claim_C3 (s t : CacheState α) (hr : Reachable s) (hs : Steps s t)
    (k : String) (r r' : Resource α)
    (h1 : mapGet s.cache k = some r) (h2 : mapGet t.cache k = some r') :
    r'.status = r.status ∨
    (r.status = "pending" ∧ (r'.status = "resolved" ∨ r'.status = "error")) := by
  obtain ⟨r'', hget'', hcase⟩ := steps_entry hr hs h1
  rw [h2] at hget''
  injection hget'' with hrr
  subst hrr
  rcases hcase with rfl | ⟨hp, hterm⟩
  · exact Or.inl rfl
  · exact Or.inr ⟨hp, hterm⟩

/-- C4: when `read` suspends, the handle it throws is the stored in-flight
promise itself (same identity as the entry's `promise` field), and a second
`read` with the same family and input before settlement — even through a
handle with a different loader — throws the very same promise and changes
nothing. -/
theorem claim_C4 (s : CacheState α) (f : String) (l l2 : Nat) (i : String) (p : Nat)
    (h : (read f l i s).1 = ReadResult.throwPromise p) :
    (∃ r, mapGet (read f l i s).2.cache (f ++ ":" ++ i) = some r ∧
        r.status = "pending" ∧ r.promiseId = p) ∧
    (read f l2 i (read f l i s).2).1 = ReadResult.throwPromise p ∧
    (read f l2 i (read f l i s).2).2 = (read f l i s).2 := by
  rw [read_fst] at h
  obtain ⟨r, hor, hp, hpid⟩ := readOutcome_eq_throwPromise h
  have hget : mapGet (read f l i s).2.cache (f ++ ":" ++ i) = some r := hor
  have hhas : mapHas (read f l i s).2.cache (f ++ ":" ++ i) = true :=
    mapHas_of_get_eq_some hget
  refine ⟨⟨r, hget, hp, hpid⟩, ?_, ?_⟩
  · rw [read_fst, accessData_of_has l2 i hhas, hget, readOutcome_pending hp, hpid]
  · rw [read_snd f l2 i (read f l i s).2, accessData_of_has l2 i hhas]

/-- C5: once the entry for `family ++ ":" ++ input` is `"resolved"` holding
`v`, every later `read` for that key — after any further events whatsoever —
returns exactly `v` synchronously and leaves the state untouched (so no new
loader invocation, through any handle `l`). -/
theorem claim_C5 (s : CacheState α) (hr : Reachable s) (f i : String) (v : α)
    (r : Resource α) (hget : mapGet s.cache (f ++ ":" ++ i) = some r)
    (hres : r.status = "resolved") (hv : r.value = some v)
    (t : CacheState α) (hs : Steps s t) (l : Nat) :
    (read f l i t).1 = ReadResult.returnValue (some v) ∧ (read f l i t).2 = t := by
  have hterm : r.status ≠ "pending" := by
    rw [hres]
    simp
  have hget' : mapGet t.cache (f ++ ":" ++ i) = some r :=
    steps_entry_terminal hr hs hget hterm
  have hhas : mapHas t.cache (f ++ ":" ++ i) = true := mapHas_of_get_eq_some hget'
  constructor
  · rw [read_fst, accessData_of_has l i hhas, hget', readOutcome_resolved hres, hv]
  · rw [read_snd, accessData_of_has l i hhas]

/-- C6: both `read` (cache.ts line 33) and `preload` (line 57) address the
cache through the key `resourceFamily + ":" + toString(input)` — `specKey` is
that formula in the spec's words — so the same `(resourceFamily, input)` pair
always maps to the same key: the state effect of either operation is
`accessData` at `specKey`, and the outcome of `read` is the switch applied to
the entry stored under `specKey`. -/
theorem claim_C6 (f : String) (l : Nat) (i : String) (s : CacheState α) :
    (read f l i s).2 = accessData l (specKey f i) i s ∧
    preload f l i s = accessData l (specKey f i) i s ∧
    (read f l i s).1 =
      readOutcome (mapGet (accessData l (specKey f i) i s).cache (specKey f i)) :=
  ⟨rfl, rfl, rfl⟩

/-- C7: `preload` returns no result in any entry state — its whole effect is
the state it leaves behind (in this embedding its type surfaces no
`ReadResult` at all, unlike `read`): when the key is present (whatever the
entry's status) the state is completely untouched, and when the key is absent
it creates the pending entry and invokes the loader once as a side effect. -/
theorem claim_C7 (f : String) (l : Nat) (i : String) (s : CacheState α) :
    (mapHas s.cache (f ++ ":" ++ i) = true → preload f l i s = s) ∧
    (mapHas s.cache (f ++ ":" ++ i) = false →
      mapGet (preload f l i s).cache (f ++ ":" ++ i) =
        some ⟨s.nextId, "pending", none⟩ ∧
      (preload f l i s).log = s.log ++ [(l, i)]) := by
  constructor
  · intro h
    rw [preload_def, accessData_of_has l i h]
  · intro h
    rw [preload_def, accessData_of_not_has l i h]
    exact ⟨mapGet_mapSet_self _ _ _, rfl⟩

/-- C8: `read` is frame-safe: when an entry for the computed key already
exists, the whole state — the cache map with every entry under every key, and
the loader log — is left exactly as it was; when the key is absent, the call
creates the pending entry at that key, invokes the loader once, and leaves
every other key's entry unchanged. -/
theorem claim_C8 (f : String) (l : Nat) (i : String) (s : CacheState α) :
    (mapHas s.cache (f ++ ":" ++ i) = true → (read f l i s).2 = s) ∧
    (mapHas s.cache (f ++ ":" ++ i) = false →
      mapGet (read f l i s).2.cache (f ++ ":" ++ i) =
        some ⟨s.nextId, "pending", none⟩ ∧
      (read f l i s).2.log = s.log ++ [(l, i)] ∧
      ∀ k, k ≠ f ++ ":" ++ i → mapGet (read f l i s).2.cache k = mapGet s.cache k) := by
  constructor
  · intro h
    rw [read_snd, accessData_of_has l i h]
  · intro h
    rw [read_snd, accessData_of_not_has l i h]
    refine ⟨mapGet_mapSet_self _ _ _, rfl, ?_⟩
    intro k hk
    exact mapGet_mapSet_ne _ _ hk

/-- C9: in every reachable state no entry carries the status `"rejected"` —
the rejection continuation writes `"error"` — so the `case "rejected"` branch
of `read`'s switch is dead: `read` can never throw a stored error, and a
`read` of a failed (status `"error"`) entry falls through to the default
branch and returns `undefined`. -/
theorem claim_C9 (s : CacheState α) (hr : Reachable s) :
    (∀ k r, mapGet s.cache k = some r → r.status ≠ "rejected") ∧
    (∀ (f : String) (l : Nat) (i : String) (e : Option α),
        (read f l i s).1 ≠ ReadResult.throwError e) ∧
    (∀ (f : String) (l : Nat) (i : String) (r : Resource α),
        mapGet s.cache (f ++ ":" ++ i) = some r → r.status = "error" →
        (read f l i s).1 = ReadResult.returnUndefined) := by
  have hinv := reachable_inv hr
  refine ⟨?_, ?_, ?_⟩
  · intro k r hget
    rcases (hinv.1 k r hget).1 with h | h | h <;> rw [h] <;> simp
  · intro f l i e
    rw [read_fst]
    rcases mapGet_accessData_cases l (f ++ ":" ++ i) i s (f ++ ":" ++ i) with
      hc | ⟨_, _, hc⟩
    · rw [hc]
      cases hm : mapGet s.cache (f ++ ":" ++ i) with
      | none => simp [readOutcome]
      | some r => exact readOutcome_ne_throwError_of_statusOk (hinv.1 _ r hm).1 e
    · rw [hc]
      exact readOutcome_ne_throwError_of_statusOk (Or.inl rfl) e
  · intro f l i r hget herr
    have hhas := mapHas_of_get_eq_some hget
    rw [read_fst, accessData_of_has l i hhas, hget, readOutcome_error herr]

/-- C10: all handles act on the one module-wide cache map
(`const resourceCache = new Map()` at cache.ts line 7).  If a second handle
shares the `resourceFamily` of a first one — even with a different loader —
then once the first handle has cached an input, a `preload` or `read` through
the second handle reuses the existing entry, changes nothing, and the second
handle's loader is never invoked: only the first loader's invocation is ever
logged. -/
theorem claim_C10 (f : String) (l1 l2 : Nat) (i : String) (s : CacheState α)
    (h : mapHas s.cache (f ++ ":" ++ i) = false) :
    (preload f l1 i s).log = s.log ++ [(l1, i)] ∧
    preload f l2 i (preload f l1 i s) = preload f l1 i s ∧
    (read f l2 i (preload f l1 i s)).2 = preload f l1 i s ∧
    (read f l2 i (preload f l1 i s)).1 =
      readOutcome (mapGet (preload f l1 i s).cache (f ++ ":" ++ i)) := by
  have hhas : mapHas (preload f l1 i s).cache (f ++ ":" ++ i) = true := by
    rw [preload_def]
    exact mapHas_accessData_self l1 _ i s
  refine ⟨?_, ?_, ?_, ?_⟩
  · rw [preload_def, accessData_of_not_has l1 i h]
  · rw [preload_def f l2, accessData_of_has l2 i hhas]
  · rw [read_snd, accessData_of_has l2 i hhas]
  · rw [read_fst, accessData_of_has l2 i hhas]

/-! ### Witnesses: the claim statements instantiated on concrete runs -/

/-- Witness for C2: from the empty initial state, a `read` followed by a
`preload` with the same family and input acts as a single `accessData`, and
the loader is invoked exactly once. -/
theorem claim_C2_witness :
    ((initState : CacheState Nat).cache.map Prod.fst).Nodup ∧
    (applyCalls "f" 0 "x" [CallKind.readCall, CallKind.preloadCall]
        (initState : CacheState Nat) =
      accessData 0 ("f" ++ ":" ++ "x") "x" initState ∧
      (applyCalls "f" 0 "x" [CallKind.readCall, CallKind.preloadCall]
          (initState : CacheState Nat)).log.length =
        (initState : CacheState Nat).log.length +
          (if mapHas (initState : CacheState Nat).cache ("f" ++ ":" ++ "x") then 0
            else 1)) :=
  ⟨(claim_C2 initState Reachable.init).1,
    (claim_C2 initState Reachable.init).2 "f" 0 "x"
      [CallKind.readCall, CallKind.preloadCall] (by decide)⟩

/-- Witness for C3: on the run that creates the `"f:x"` entry and then
fulfils its load with `5`, the entry's status moved from `"pending"` to
`"resolved"`. -/
theorem claim_C3_witness :
    (⟨0, "resolved", some 5⟩ : Resource Nat).status =
      (⟨0, "pending", none⟩ : Resource Nat).status ∨
    ((⟨0, "pending", none⟩ : Resource Nat).status = "pending" ∧
      ((⟨0, "resolved", some 5⟩ : Resource Nat).status = "resolved" ∨
        (⟨0, "resolved", some 5⟩ : Resource Nat).status = "error")) :=
  claim_C3 exPend exRes exPend_reachable exPend_to_exRes "f:x"
    ⟨0, "pending", none⟩ ⟨0, "resolved", some 5⟩ exPend_get (by decide)

/-- Witness for C4: the first `read("x")` from the empty state throws the
promise with id 0, and a second `read` through a handle with a different
loader throws that same promise and changes nothing. -/
theorem claim_C4_witness :
    (read "f" 1 "x" (read "f" 0 "x" (initState : CacheState Nat)).2).1 =
      ReadResult.throwPromise 0 ∧
    (read "f" 1 "x" (read "f" 0 "x" (initState : CacheState Nat)).2).2 =
      (read "f" 0 "x" (initState : CacheState Nat)).2 :=
  ⟨(claim_C4 initState "f" 0 1 "x" 0 (by decide)).2.1,
    (claim_C4 initState "f" 0 1 "x" 0 (by decide)).2.2⟩

/-- Witness for C5: after the `"f:x"` load has resolved with `5`, a later
`read` returns `5` and leaves the state untouched. -/
theorem claim_C5_witness :
    (read "f" 1 "x" exRes).1 = ReadResult.returnValue (some 5) ∧
    (read "f" 1 "x" exRes).2 = exRes :=
  claim_C5 exRes exRes_reachable "f" "x" 5 ⟨0, "resolved", some 5⟩ (by decide) rfl rfl
    exRes (Steps.refl exRes) 1

/-- Witness for C7: a first `preload("x")` from the empty state creates the
pending entry under `"f:x"` and logs one loader invocation. -/
theorem claim_C7_witness :
    mapGet (preload "f" 0 "x" (initState : CacheState Nat)).cache ("f" ++ ":" ++ "x") =
      some ⟨0, "pending", none⟩ ∧
    (preload "f" 0 "x" (initState : CacheState Nat)).log = [] ++ [(0, "x")] :=
  (claim_C7 "f" 0 "x" initState).2 (by decide)

/-- Witness for C8: a first `read("x")` from the empty state creates the
pending entry under `"f:x"` and logs one loader invocation. -/
theorem claim_C8_witness :
    mapGet (read "f" 0 "x" (initState : CacheState Nat)).2.cache ("f" ++ ":" ++ "x") =
      some ⟨0, "pending", none⟩ ∧
    (read "f" 0 "x" (initState : CacheState Nat)).2.log = [] ++ [(0, "x")] :=
  ⟨((claim_C8 "f" 0 "x" initState).2 (by decide)).1,
    ((claim_C8 "f" 0 "x" initState).2 (by decide)).2.1⟩

/-- Witness for C9: reading the `"f:x"` entry after its load rejected with
`7` returns `undefined` (the default branch). -/
theorem claim_C9_witness :
    (read "f" 1 "x" exErr).1 = ReadResult.returnUndefined :=
  (claim_C9 exErr exErr_reachable).2.2 "f" 1 "x" ⟨0, "error", some 7⟩ (by decide) rfl

/-- Witness for C10: after a `preload` through the handle `("f", 0)`, a
`preload` and a `read` through a same-family handle with the different loader
`1` change nothing, and only loader `0` was ever invoked. -/
theorem claim_C10_witness :
    (preload "f" 0 "x" (initState : CacheState Nat)).log = [] ++ [(0, "x")] ∧
    preload "f" 1 "x" (preload "f" 0 "x" (initState : CacheState Nat)) =
      preload "f" 0 "x" initState ∧
    (read "f" 1 "x" (preload "f" 0 "x" (initState : CacheState Nat))).2 =
      preload "f" 0 "x" initState ∧
    (read "f" 1 "x" (preload "f" 0 "x" (initState : CacheState Nat))).1 =
      readOutcome
        (mapGet (preload "f" 0 "x" (initState : CacheState Nat)).cache
          ("f" ++ ":" ++ "x")) :=
  claim_C10 "f" 0 1 "x" initState (by decide)

end ConcurrentMode
